import Mathlib

/-!
# Verification of the `s3-store-mock` object-store engine

Shallow embedding of `src/index.mjs` (class `S3StoreMock`): a single-bucket
object store over a local file system.  Paths are modelled as lists of path
segments relative to the store's base directory (`path.join(cwd, mockDir,
bucket)`); `path.join(basePath, key)` resolves a slash-separated key string to
such a segment list.  The file system is an association list of files plus the
set of directories created so far; machine files hold raw bytes (`List Nat`,
one entry per byte).

The etag calculator (`#calculateEtag`) is the MD5 digest of the content,
rendered as lowercase hex wrapped in double quotes; MD5 is implemented here in
full (padding, 64-round compression, little-endian digest) over `Nat` with
explicit `% 2 ^ 32` masking.
-/

namespace S3StoreMock

/-! ## Etag calculator: MD5 (`#calculateEtag`, src/index.mjs lines 33-37) -/

/-- Raw byte content of a file: one `Nat` per byte (values `< 256`). -/
abbrev Bytes := List Nat

/-- The 64 MD5 round constants `K[i] = floor(|sin(i+1)| * 2^32)`. -/
def md5K : List Nat :=
  [0xd76aa478, 0xe8c7b756, 0x242070db, 0xc1bdceee, 0xf57c0faf, 0x4787c62a,
   0xa8304613, 0xfd469501, 0x698098d8, 0x8b44f7af, 0xffff5bb1, 0x895cd7be,
   0x6b901122, 0xfd987193, 0xa679438e, 0x49b40821, 0xf61e2562, 0xc040b340,
   0x265e5a51, 0xe9b6c7aa, 0xd62f105d, 0x02441453, 0xd8a1e681, 0xe7d3fbc8,
   0x21e1cde6, 0xc33707d6, 0xf4d50d87, 0x455a14ed, 0xa9e3e905, 0xfcefa3f8,
   0x676f02d9, 0x8d2a4c8a, 0xfffa3942, 0x8771f681, 0x6d9d6122, 0xfde5380c,
   0xa4beea44, 0x4bdecfa9, 0xf6bb4b60, 0xbebfbc70, 0x289b7ec6, 0xeaa127fa,
   0xd4ef3085, 0x04881d05, 0xd9d4d039, 0xe6db99e5, 0x1fa27cf8, 0xc4ac5665,
   0xf4292244, 0x432aff97, 0xab9423a7, 0xfc93a039, 0x655b59c3, 0x8f0ccc92,
   0xffeff47d, 0x85845dd1, 0x6fa87e4f, 0xfe2ce6e0, 0xa3014314, 0x4e0811a1,
   0xf7537e82, 0xbd3af235, 0x2ad7d2bb, 0xeb86d391]

/-- The MD5 per-round left-rotation amounts. -/
def md5S : List Nat :=
  [7, 12, 17, 22, 7, 12, 17, 22, 7, 12, 17, 22, 7, 12, 17, 22,
   5,  9, 14, 20, 5,  9, 14, 20, 5,  9, 14, 20, 5,  9, 14, 20,
   4, 11, 16, 23, 4, 11, 16, 23, 4, 11, 16, 23, 4, 11, 16, 23,
   6, 10, 15, 21, 6, 10, 15, 21, 6, 10, 15, 21, 6, 10, 15, 21]

/-- Left-rotation of a 32-bit word. -/
def rotl32 (x n : Nat) : Nat :=
  ((x <<< n) ||| (x >>> (32 - n))) % 2 ^ 32

/-- Bitwise complement within 32 bits. -/
def not32 (x : Nat) : Nat := x ^^^ 0xffffffff

/-- MD5 padding: append `0x80`, zero bytes up to 56 mod 64, then the
bit-length as 8 little-endian bytes. -/
def md5Pad (m : Bytes) : Bytes :=
  let L := m.length
  let z := (119 - L % 64) % 64
  let bitLen := (8 * L) % 2 ^ 64
  m ++ 0x80 :: List.replicate z 0
    ++ (List.range 8).map fun i => bitLen >>> (8 * i) % 256

/-- Word `g` (little-endian 32-bit) of a 64-byte block. -/
def blockWord (block : Bytes) (g : Nat) : Nat :=
  block.getD (4 * g) 0 % 256
    + 256 * (block.getD (4 * g + 1) 0 % 256)
    + 256 ^ 2 * (block.getD (4 * g + 2) 0 % 256)
    + 256 ^ 3 * (block.getD (4 * g + 3) 0 % 256)

/-- One MD5 round: compute the nonlinear function and message index for round
`i`, then rotate the register file. -/
def md5Round (block : Bytes) (st : Nat × Nat × Nat × Nat) (i : Nat) :
    Nat × Nat × Nat × Nat :=
  let (a, b, c, d) := st
  let fg : Nat × Nat :=
    if i < 16 then ((b &&& c) ||| (not32 b &&& d), i)
    else if i < 32 then ((d &&& b) ||| (not32 d &&& c), (5 * i + 1) % 16)
    else if i < 48 then (b ^^^ c ^^^ d, (3 * i + 5) % 16)
    else (c ^^^ (b ||| not32 d), (7 * i) % 16)
  let tmp := (a + fg.1 + md5K.getD i 0 + blockWord block fg.2) % 2 ^ 32
  (d, (b + rotl32 tmp (md5S.getD i 0)) % 2 ^ 32, b, c)

/-- Process one 64-byte block: 64 rounds, then add into the running state. -/
def md5Block (st : Nat × Nat × Nat × Nat) (block : Bytes) :
    Nat × Nat × Nat × Nat :=
  let (a0, b0, c0, d0) := st
  let r := (List.range 64).foldl (md5Round block) st
  ((a0 + r.1) % 2 ^ 32, (b0 + r.2.1) % 2 ^ 32,
   (c0 + r.2.2.1) % 2 ^ 32, (d0 + r.2.2.2) % 2 ^ 32)

/-- Split a list into 64-byte blocks; the fuel argument (any bound on the
number of blocks, e.g. the list length) makes the recursion structural. -/
def md5ChunksGo : Nat → Bytes → List Bytes
  | _, [] => []
  | 0, _ => []
  | fuel + 1, a :: l => (a :: l).take 64 :: md5ChunksGo fuel ((a :: l).drop 64)

/-- Split a padded message into 64-byte blocks. -/
def md5Chunks (l : Bytes) : List Bytes := md5ChunksGo l.length l

/-- The four 32-bit words of the MD5 state after absorbing the whole padded
message, starting from the standard initialisation vector. -/
def md5State (m : Bytes) : Nat × Nat × Nat × Nat :=
  (md5Chunks (md5Pad m)).foldl md5Block
    (0x67452301, 0xefcdab89, 0x98badcfe, 0x10325476)

/-- The 16 digest bytes: each state word serialised little-endian. -/
def md5Digest (m : Bytes) : Bytes :=
  let (a, b, c, d) := md5State m
  let le4 : Nat → Bytes := fun w =>
    [w % 256, w >>> 8 % 256, w >>> 16 % 256, w >>> 24 % 256]
  le4 a ++ le4 b ++ le4 c ++ le4 d

/-- One lowercase hex digit. -/
def hexDigit (n : Nat) : Char :=
  if n < 10 then Char.ofNat (48 + n) else Char.ofNat (87 + n)

/-- A byte as two lowercase hex digits. -/
def hexByte (n : Nat) : List Char := [hexDigit (n / 16 % 16), hexDigit (n % 16)]

/-- The lowercase-hex MD5 digest of a byte content. -/
def md5Hex (m : Bytes) : String :=
  ⟨(md5Digest m).flatMap hexByte⟩

/-- `#calculateEtag`: the MD5 hex digest wrapped in double quotes. -/
def calculateEtag (content : Bytes) : String :=
  "\"" ++ md5Hex content ++ "\""

/-! ## File-system model

A path is the list of path segments below the store's base directory
`path.join(cwd, mockDir, bucket)`.  The state holds the regular files (as an
association list, most recent write first) and the set of directories created
so far (`fs.mkdir` with `recursive: true` records every ancestor). -/

/-- A path relative to the store's base directory, as a list of segments. -/
abbrev Path := List String

/-- The parsed content of a metadata artifact: `{etag, contentType}`. -/
structure Meta where
  etag : String
  contentType : String
deriving DecidableEq, Repr

/-- Content of a regular file.  A data artifact holds raw bytes.  A metadata
artifact written by `#writeMeta` holds `JSON.stringify({etag, contentType})`;
since `JSON.parse` inverts `JSON.stringify` exactly, such content is modelled
in parsed form (`metaRec`), while `bytes` stands for any other content, which
`#readMeta` cannot parse as a stored record. -/
inductive FileContent where
  | bytes (b : Bytes)
  | metaRec (m : Meta)
deriving DecidableEq, Repr

/-- JSON string-character escaping (backslash and double quote). -/
def jsonEscapeChar (c : Char) : List Char :=
  if c = '"' ∨ c = '\\' then ['\\', c] else [c]

/-- A JSON string literal. -/
def jsonString (s : String) : String :=
  "\"" ++ ⟨s.data.flatMap jsonEscapeChar⟩ ++ "\""

/-- `JSON.stringify({etag, contentType})` as written by `#writeMeta`. -/
def metaStringify (m : Meta) : String :=
  "\x7b\"etag\":" ++ jsonString m.etag
    ++ ",\"contentType\":" ++ jsonString m.contentType ++ "\x7d"

/-- Code points of a string, as stored bytes of a text file. -/
def strBytes (s : String) : Bytes := s.data.map Char.toNat

/-- The raw bytes a file holds on disk. -/
def FileContent.toBytes : FileContent → Bytes
  | .bytes b => b
  | .metaRec m => strBytes (metaStringify m)

/-- The file-system state under the store's base directory. -/
structure FS where
  files : List (Path × FileContent)
  dirs : List Path
deriving DecidableEq, Repr

/-- Is there a regular file at `p`? -/
def FS.isFile (fs : FS) (p : Path) : Bool :=
  fs.files.any fun e => e.1 = p

/-- Is there a directory at `p`? -/
def FS.isDir (fs : FS) (p : Path) : Bool :=
  fs.dirs.any fun q => q = p

/-- `fs.access(p)` succeeds iff anything (file or directory) exists at `p`;
this is what `#fileExists` calls. -/
def FS.access (fs : FS) (p : Path) : Bool :=
  fs.isFile p || fs.isDir p

/-- The content of the regular file at `p`, if one exists. -/
def FS.readF (fs : FS) (p : Path) : Option FileContent :=
  (fs.files.find? fun e => e.1 = p).map (·.2)

/-- Overwrite-or-create the file at `p` (the pure part of `fs.writeFile`). -/
def FS.setFile (fs : FS) (p : Path) (c : FileContent) : FS :=
  { fs with files := (p, c) :: fs.files.filter fun e => ¬e.1 = p }

/-- `fs.writeFile(p, c)`: fails (with `EISDIR`) when a directory occupies
`p`; otherwise replaces the file's content. -/
def FS.writeF (fs : FS) (p : Path) (c : FileContent) : Option FS :=
  if fs.isDir p then none else some (fs.setFile p c)

/-- Error codes of the low-level file operations the store distinguishes. -/
inductive FsErr where
  | enoent
  | eisdir
deriving DecidableEq, Repr

/-- `fs.readFile(p)`: `ENOENT` when nothing is at `p`, `EISDIR`-like failure
when a directory is. -/
def FS.readFile (fs : FS) (p : Path) : Except FsErr FileContent :=
  if fs.isDir p then .error .eisdir
  else match fs.readF p with
    | some c => .ok c
    | none => .error .enoent

/-- Remove the file entry at `p` (the pure part of `fs.unlink`). -/
def FS.rmFile (fs : FS) (p : Path) : FS :=
  { fs with files := fs.files.filter fun e => ¬e.1 = p }

/-- `fs.unlink(p)`: removes the regular file at `p`; `ENOENT` when absent,
`EISDIR` when a directory occupies `p`. -/
def FS.unlink (fs : FS) (p : Path) : Except FsErr FS :=
  if fs.isDir p then .error .eisdir
  else if fs.isFile p then .ok (fs.rmFile p)
  else .error .enoent

/-- All prefixes of a path, shortest first (the chain `mkdir -p` creates). -/
def pathPrefixes (p : Path) : List Path :=
  (List.range (p.length + 1)).map fun i => p.take i

/-- Does a regular file block the creation of directory `dir` or of one of
its ancestors? -/
def FS.dirObstructed (fs : FS) (dir : Path) : Bool :=
  (pathPrefixes dir).any fun q => fs.isFile q

/-- The pure part of `fs.mkdir(dir, {recursive: true})`. -/
def FS.addDirs (fs : FS) (dir : Path) : FS :=
  { fs with dirs := pathPrefixes dir ++ fs.dirs }

/-- `fs.mkdir(dir, {recursive: true})`: fails when a regular file occupies
`dir` or an ancestor. -/
def FS.mkdirRec (fs : FS) (dir : Path) : Option FS :=
  if fs.dirObstructed dir then none else some (fs.addDirs dir)

/-- `#ensureDir(filePath)`: recursively create `path.dirname(filePath)`. -/
def FS.ensureDir (fs : FS) (filePath : Path) : Option FS :=
  fs.mkdirRec filePath.dropLast

/-! ## Path resolver (`#getFilePath`, `#getMetaPath`) -/

/-- `#getFilePath`: `path.join(basePath, key)` — the key's own segments. -/
def dataPath (key : Path) : Path := key

/-- `#getMetaPath`: `path.join(basePath, key + ".meta")` — appending the
suffix to the key string renames its last segment. -/
def metaPath : Path → Path
  | [] => [".meta"]
  | [s] => [s ++ ".meta"]
  | s :: r :: rest => s :: metaPath (r :: rest)

/-! ## Store operations (class `S3StoreMock`)

Every state-changing operation returns the resulting file-system state
together with either its response or the thrown error, so that a failed call
documents exactly which effects had already been applied. -/

/-- The errors the store throws: `KeyExistsError`, `StaleDataError`, the
`NoSuchKey` error, and any other propagated I/O failure. -/
inductive StoreErr where
  | keyExists
  | staleData
  | noSuchKey
  | ioFailure
deriving DecidableEq, Repr

/-- `#readMeta`: read and `JSON.parse` the metadata artifact; `null` when the
file is absent or its content does not parse to a stored record. -/
def readMeta (fs : FS) (key : Path) : Option Meta :=
  match fs.readF (metaPath key) with
  | some (.metaRec m) => some m
  | _ => none

/-- `#writeMeta`: ensure the parent directory, then overwrite the metadata
artifact with the serialised record. -/
def writeMeta (fs : FS) (key : Path) (m : Meta) : Option FS :=
  match fs.ensureDir (metaPath key) with
  | none => none
  | some fs1 => fs1.writeF (metaPath key) (.metaRec m)

/-- `createObject(key, body, contentType)` (src/index.mjs lines 64-81). -/
def createObject (fs : FS) (key : Path) (body : Bytes)
    (contentType : String := "application/json") :
    FS × Except StoreErr String :=
  if fs.access (dataPath key) then (fs, .error .keyExists)
  else match fs.ensureDir (dataPath key) with
    | none => (fs, .error .ioFailure)
    | some fs1 =>
      match fs1.writeF (dataPath key) (.bytes body) with
      | none => (fs1, .error .ioFailure)
      | some fs2 =>
        match writeMeta fs2 key ⟨calculateEtag body, contentType⟩ with
        | none => (fs2, .error .ioFailure)
        | some fs3 => (fs3, .ok (calculateEtag body))

/-- `putObjectIfMatch(key, body, etag, contentType)` (src/index.mjs lines
83-100). -/
def putObjectIfMatch (fs : FS) (key : Path) (body : Bytes) (etag : String)
    (contentType : String := "application/json") :
    FS × Except StoreErr String :=
  match readMeta fs key with
  | none => (fs, .error .staleData)
  | some m =>
    if ¬m.etag = etag then (fs, .error .staleData)
    else match fs.ensureDir (dataPath key) with
      | none => (fs, .error .ioFailure)
      | some fs1 =>
        match fs1.writeF (dataPath key) (.bytes body) with
        | none => (fs1, .error .ioFailure)
        | some fs2 =>
          match writeMeta fs2 key ⟨calculateEtag body, contentType⟩ with
          | none => (fs2, .error .ioFailure)
          | some fs3 => (fs3, .ok (calculateEtag body))

/-- `getObject(key)` (src/index.mjs lines 122-154): the returned pair is the
response's body bytes and its (nullable) etag `meta?.etag`.  The source reads
the metadata before the data file; both are pure here, so the read order
carries no content. -/
def getObject (fs : FS) (key : Path) : Except StoreErr (Bytes × Option String) :=
  match fs.readFile (dataPath key) with
  | .ok c => .ok (c.toBytes, (readMeta fs key).map Meta.etag)
  | .error .enoent => .error .noSuchKey
  | .error _ => .error .ioFailure

/-- `getObjectIfMatch(key, etag)` (src/index.mjs lines 102-120). -/
def getObjectIfMatch (fs : FS) (key : Path) (etag : String) :
    Except StoreErr (Bytes × Option String) :=
  if ¬fs.access (dataPath key) then .error .noSuchKey
  else match readMeta fs key with
    | none => .error .staleData
    | some m =>
      if ¬m.etag = etag then .error .staleData
      else getObject fs key

/-- `deleteObject(key)` (src/index.mjs lines 166-187): unlink both artifacts,
swallowing `ENOENT`; the response's etag is `null` (`none`). -/
def deleteObject (fs : FS) (key : Path) :
    FS × Except StoreErr (Option String) :=
  match fs.unlink (dataPath key) with
  | .error .eisdir => (fs, .error .ioFailure)
  | .error .enoent => deleteMetaStep fs key
  | .ok fs1 => deleteMetaStep fs1 key
where
  /-- The second `unlink` (the metadata artifact) and the final response. -/
  deleteMetaStep (fs1 : FS) (key : Path) :
      FS × Except StoreErr (Option String) :=
    match fs1.unlink (metaPath key) with
    | .error .eisdir => (fs1, .error .ioFailure)
    | .error .enoent => (fs1, .ok none)
    | .ok fs2 => (fs2, .ok none)

/-! ## Lister (`list`, src/index.mjs lines 202-246)

The walk is the depth-first `readdir` recursion; the fuel argument (any bound
exceeding every stored path length) makes it structural.  `LastModified`
(a wall-clock timestamp) is outside this state model and is not represented;
an entry carries the `Key` and `Size` fields. -/

/-- One listing entry: the key relative to the bucket root (forward-slash
separated, as produced by `path.relative` plus the separator normalisation)
and the file's size in bytes. -/
structure ListEntry where
  Key : String
  Size : Nat
deriving DecidableEq, Repr

/-- Join path segments with forward slashes (the `Key` of an entry). -/
def joinPath (p : Path) : String := String.intercalate "/" p

/-- Does the file's name (its last segment) end in the metadata suffix? -/
def isMetaName (p : Path) : Bool :=
  match p.getLast? with
  | some n => n.endsWith ".meta"
  | none => false

/-- The directory-entry name `p` has inside directory `d`, when `p` is an
immediate child of `d`. -/
def childName (d p : Path) : Option String :=
  if p.length = d.length + 1 ∧ d <+: p then p.getLast? else none

/-- The names `readdir(d)` yields: every file or directory lying directly
inside `d`, each once. -/
def FS.childNames (fs : FS) (d : Path) : List String :=
  ((fs.files.filterMap fun e => childName d e.1)
    ++ fs.dirs.filterMap fun q => childName d q).dedup

/-- The size `fs.stat(p)` reports. -/
def FS.fileSize (fs : FS) (p : Path) : Nat :=
  match fs.readF p with
  | some c => c.toBytes.length
  | none => 0

/-- The recursive `walk(dir, baseDir)`: directories are entered depth-first;
every regular file whose name does not end in `".meta"` contributes one
entry. -/
def FS.walkGo (fs : FS) : Nat → Path → List ListEntry
  | 0, _ => []
  | fuel + 1, d =>
    (fs.childNames d).flatMap fun n =>
      let p := d ++ [n]
      if fs.isDir p then fs.walkGo fuel p
      else if fs.isFile p ∧ ¬(n.endsWith ".meta") then
        [⟨joinPath p, fs.fileSize p⟩]
      else []

/-- Fuel that bounds every stored path length, so the walk never runs out. -/
def FS.depthBound (fs : FS) : Nat :=
  ((fs.files.map fun e => e.1.length) ++ fs.dirs.map List.length).foldr max 0
    + 1

/-- `list(prefix)`: no batch when the search path does not exist or the walk
finds nothing; otherwise all discovered entries as one single batch. -/
def list (fs : FS) (pre : Path := []) : List (List ListEntry) :=
  if ¬fs.access pre then []
  else
    let results := fs.walkGo fs.depthBound pre
    if results = [] then [] else [results]

/-- `deleteObjectIfMatch(key, etag)` (src/index.mjs lines 156-164). -/
def deleteObjectIfMatch (fs : FS) (key : Path) (etag : String) :
    FS × Except StoreErr (Option String) :=
  match readMeta fs key with
  | none => (fs, .error .staleData)
  | some m =>
    if ¬m.etag = etag then (fs, .error .staleData)
    else deleteObject fs key

/-! ## Concrete states and inputs used by the verification -/

/-- First message of the classic MD5 collision pair (Wang et al.). -/
def wangA : Bytes := [209, 49, 221, 2, 197, 230, 238, 196, 105, 61, 154, 6, 152, 175, 249, 92, 47, 202, 181, 135, 18, 70, 126, 171, 64, 4, 88, 62, 184, 251, 127, 137, 85, 173, 52, 6, 9, 244, 179, 2, 131, 228, 136, 131, 37, 113, 65, 90, 8, 81, 37, 232, 247, 205, 201, 159, 217, 29, 189, 242, 128, 55, 60, 91, 216, 130, 62, 49, 86, 52, 143, 91, 174, 109, 172, 212, 54, 201, 25, 198, 221, 83, 226, 180, 135, 218, 3, 253, 2, 57, 99, 6, 210, 72, 205, 160, 233, 159, 51, 66, 15, 87, 126, 232, 206, 84, 182, 112, 128, 168, 13, 30, 198, 152, 33, 188, 182, 168, 131, 147, 150, 249, 101, 43, 111, 247, 42, 112]

/-- Second message of the classic MD5 collision pair: differs from `wangA`
in six bytes yet has the same MD5 digest. -/
def wangB : Bytes := [209, 49, 221, 2, 197, 230, 238, 196, 105, 61, 154, 6, 152, 175, 249, 92, 47, 202, 181, 7, 18, 70, 126, 171, 64, 4, 88, 62, 184, 251, 127, 137, 85, 173, 52, 6, 9, 244, 179, 2, 131, 228, 136, 131, 37, 241, 65, 90, 8, 81, 37, 232, 247, 205, 201, 159, 217, 29, 189, 114, 128, 55, 60, 91, 216, 130, 62, 49, 86, 52, 143, 91, 174, 109, 172, 212, 54, 201, 25, 198, 221, 83, 226, 52, 135, 218, 3, 253, 2, 57, 99, 6, 210, 72, 205, 160, 233, 159, 51, 66, 15, 87, 126, 232, 206, 84, 182, 112, 128, 40, 13, 30, 198, 152, 33, 188, 182, 168, 131, 147, 150, 249, 101, 171, 111, 247, 42, 112]

/-- The bytes of `"hello"`. -/
def exBytes1 : Bytes := [104, 101, 108, 108, 111]

/-- The etag of `"hello"`: quoted MD5 hex digest. -/
def exEtag1 : String := "\"5d41402abc4b2a76b9719d911017c592\""

def exMeta1 : Meta := ⟨exEtag1, "text/plain"⟩

/-- The empty store (fresh bucket, base directory not yet created). -/
def exFS0 : FS := ⟨[], []⟩

/-- A store holding object `k` (content `"hello"`) with its metadata. -/
def exFSfull : FS :=
  ⟨[(["k"], .bytes exBytes1), (["k.meta"], .metaRec exMeta1)], [[]]⟩

/-- A store with an orphaned metadata sidecar: `k.meta` exists, `k` does not. -/
def exFSorphan : FS := ⟨[(["k.meta"], .metaRec exMeta1)], [[]]⟩

/-- A store with a data artifact but no metadata artifact. -/
def exFSnometa : FS := ⟨[(["k"], .bytes exBytes1)], [[]]⟩

/-- The state produced by `createObject` of `"hello"` at key `k` on a fresh
store. -/
def exFS1c : FS :=
  ⟨[(["k.meta"], .metaRec ⟨exEtag1, "text/plain"⟩), (["k"], .bytes exBytes1)],
   [[], []]⟩

/-! ## Well-formedness and the listing specification

A reachable on-disk state satisfies: file paths are unique, every proper
prefix of a file path is a created directory, and no path is both a file and
a directory.  `listingSpec` is the specification-side description of a
listing: one entry per non-metadata file below the prefix, in file-table
order. -/

/-- Well-formedness of a file-system state. -/
def FS.WF (fs : FS) : Prop :=
  (fs.files.map Prod.fst).Nodup ∧
  (∀ e ∈ fs.files, ∀ i, i < e.1.length → e.1.take i ∈ fs.dirs) ∧
  (∀ e ∈ fs.files, e.1 ∉ fs.dirs)

/-- The listing entry a file table row denotes. -/
def entryOf (e : Path × FileContent) : ListEntry :=
  ⟨joinPath e.1, e.2.toBytes.length⟩

/-- The listing contribution of one file table row under prefix `pre`. -/
def specF (pre : Path) (e : Path × FileContent) : Option ListEntry :=
  if pre <+: e.1 ∧ ¬(isMetaName e.1 = true) then some (entryOf e) else none

/-- Specification of a listing: every non-metadata file below `pre`, once. -/
def listingSpec (fs : FS) (pre : Path) : List ListEntry :=
  fs.files.filterMap (specF pre)

/-- A well-formed store with two objects (one nested) for the listing
witness. -/
def exFSlist : FS :=
  ⟨[(["a", "b"], .bytes [1, 2]), (["a", "b.meta"], .metaRec exMeta1),
    (["c"], .bytes [3])], [[], ["a"]]⟩

instance {ε α : Type} [DecidableEq ε] [DecidableEq α] :
    DecidableEq (Except ε α) := fun a b =>
  match a, b with
  | .ok x, .ok y =>
    if h : x = y then isTrue (by rw [h]) else isFalse (by
      intro hc; cases hc; exact h rfl)
  | .error x, .error y =>
    if h : x = y then isTrue (by rw [h]) else isFalse (by
      intro hc; cases hc; exact h rfl)
  | .ok _, .error _ => isFalse (by intro h; cases h)
  | .error _, .ok _ => isFalse (by intro h; cases h)

instance (fs : FS) : Decidable fs.WF := by
  unfold FS.WF
  infer_instance

/-! ## Basic lemmas about the file-system model -/

theorem FS.isFile_iff (fs : FS) (p : Path) :
    fs.isFile p = true ↔ ∃ c, (p, c) ∈ fs.files := by
  simp only [FS.isFile, List.any_eq_true]
  constructor
  · rintro ⟨⟨q, c⟩, hq, he⟩
    simp only [decide_eq_true_eq] at he
    exact ⟨c, he ▸ hq⟩
  · rintro ⟨c, hc⟩
    exact ⟨(p, c), hc, by simp⟩

theorem FS.isDir_iff (fs : FS) (p : Path) :
    fs.isDir p = true ↔ p ∈ fs.dirs := by
  simp only [FS.isDir, List.any_eq_true, decide_eq_true_eq]
  constructor
  · rintro ⟨q, hq, rfl⟩; exact hq
  · exact fun h => ⟨p, h, rfl⟩

theorem FS.mem_of_readF (fs : FS) (p : Path) (c : FileContent)
    (h : fs.readF p = some c) : (p, c) ∈ fs.files := by
  cases hf : fs.files.find? (fun e => decide (e.1 = p)) with
  | none => simp [FS.readF, hf] at h
  | some e =>
    have hm := List.mem_of_find?_eq_some hf
    have hp : e.1 = p := by simpa using List.find?_some hf
    have hc : e.2 = c := by simpa [FS.readF, hf] using h
    have : e = (p, c) := by
      cases e; simp_all
    exact this ▸ hm

theorem FS.isFile_of_readF (fs : FS) (p : Path) (c : FileContent)
    (h : fs.readF p = some c) : fs.isFile p = true :=
  (fs.isFile_iff p).2 ⟨c, fs.mem_of_readF p c h⟩

theorem FS.readF_eq_none_of_isFile_eq_false (fs : FS) (p : Path)
    (h : fs.isFile p = false) : fs.readF p = none := by
  cases hr : fs.readF p with
  | none => rfl
  | some c => rw [fs.isFile_of_readF p c hr] at h; cases h

theorem FS.readF_setFile_self (fs : FS) (p : Path) (c : FileContent) :
    (fs.setFile p c).readF p = some c := by
  simp [FS.setFile, FS.readF]

theorem find?_filter_not_fst (l : List (Path × FileContent)) (p q : Path)
    (h : q ≠ p) :
    ((l.filter fun e => ¬e.1 = p).find? fun e => e.1 = q)
      = l.find? fun e => e.1 = q := by
  induction l with
  | nil => rfl
  | cons e t ih =>
    by_cases he : e.1 = p
    · rw [List.filter_cons_of_neg (by simpa using he)]
      rw [ih, List.find?_cons_of_neg _
        (by simp only [he, decide_eq_true_eq]; exact fun hpq => h hpq.symm)]
    · rw [List.filter_cons_of_pos (by simpa using he)]
      by_cases hq : e.1 = q
      · rw [List.find?_cons_of_pos _ (by simpa using hq),
          List.find?_cons_of_pos _ (by simpa using hq)]
      · rw [List.find?_cons_of_neg _ (by simpa using hq),
          List.find?_cons_of_neg _ (by simpa using hq), ih]

theorem FS.readF_setFile_ne (fs : FS) (p q : Path) (c : FileContent)
    (h : q ≠ p) : (fs.setFile p c).readF q = fs.readF q := by
  simp only [FS.setFile, FS.readF]
  rw [List.find?_cons_of_neg _ (by simpa using fun he => h he.symm)]
  rw [find?_filter_not_fst fs.files p q h]

theorem FS.dirs_setFile (fs : FS) (p : Path) (c : FileContent) :
    (fs.setFile p c).dirs = fs.dirs := rfl

theorem FS.readF_addDirs (fs : FS) (d : Path) (q : Path) :
    (fs.addDirs d).readF q = fs.readF q := rfl

theorem FS.isFile_addDirs (fs : FS) (d : Path) (q : Path) :
    (fs.addDirs d).isFile q = fs.isFile q := rfl

theorem FS.isDir_addDirs (fs : FS) (d : Path) (q : Path) :
    (fs.addDirs d).isDir q = (decide (q ∈ pathPrefixes d) || fs.isDir q) := by
  simp only [FS.addDirs, FS.isDir, List.any_append]
  congr 1
  induction pathPrefixes d with
  | nil => simp
  | cons a t ih =>
    simp only [List.any_cons, ih, List.mem_cons]
    by_cases h : a = q
    · subst h; simp
    · have h' : ¬q = a := fun hq => h hq.symm
      simp [h, h']

theorem mem_pathPrefixes_iff (p q : Path) :
    q ∈ pathPrefixes p ↔ ∃ i ≤ p.length, q = p.take i := by
  simp only [pathPrefixes, List.mem_map, List.mem_range]
  constructor
  · rintro ⟨i, hi, rfl⟩
    exact ⟨i, by omega, rfl⟩
  · rintro ⟨i, hi, rfl⟩
    exact ⟨i, by omega, rfl⟩

theorem length_le_of_mem_pathPrefixes (p q : Path)
    (h : q ∈ pathPrefixes p) : q.length ≤ p.length := by
  obtain ⟨i, _, rfl⟩ := (mem_pathPrefixes_iff p q).1 h
  simp [List.length_take]

/-- Adding directories at or below depth `d.length` does not create a
directory at a strictly longer path. -/
theorem FS.isDir_addDirs_of_long (fs : FS) (d : Path) (q : Path)
    (h : d.length < q.length) : (fs.addDirs d).isDir q = fs.isDir q := by
  rw [fs.isDir_addDirs d q, decide_eq_false, Bool.false_or]
  intro hmem
  exact absurd (length_le_of_mem_pathPrefixes d q hmem) (by omega)

theorem metaPath_ne_nil (k : Path) : metaPath k ≠ [] := by
  match k with
  | [] => simp [metaPath]
  | [s] => simp [metaPath]
  | s :: r :: rest => simp [metaPath]

theorem length_metaPath (k : Path) (hk : k ≠ []) :
    (metaPath k).length = k.length := by
  match k with
  | [s] => simp [metaPath]
  | s :: r :: rest =>
    simp only [metaPath, List.length_cons]
    rw [length_metaPath (r :: rest) (by simp)]
    simp

theorem dropLast_metaPath (k : Path) :
    (metaPath k).dropLast = k.dropLast := by
  match k with
  | [] => simp [metaPath]
  | [s] => simp [metaPath]
  | s :: r :: rest =>
    have hne : metaPath (r :: rest) ≠ [] := metaPath_ne_nil _
    simp only [metaPath]
    rw [List.dropLast_cons_of_ne_nil hne, List.dropLast_cons_of_ne_nil (by simp),
      dropLast_metaPath (r :: rest)]

theorem FS.readF_rmFile_self (fs : FS) (p : Path) :
    (fs.rmFile p).readF p = none := by
  simp only [FS.rmFile, FS.readF, Option.map_eq_none']
  rw [List.find?_eq_none]
  intro e he
  have := List.of_mem_filter he
  simpa using this

theorem FS.readF_rmFile_ne (fs : FS) (p q : Path) (h : q ≠ p) :
    (fs.rmFile p).readF q = fs.readF q := by
  simp only [FS.rmFile, FS.readF]
  rw [find?_filter_not_fst fs.files p q h]

theorem FS.dirs_rmFile (fs : FS) (p : Path) : (fs.rmFile p).dirs = fs.dirs :=
  rfl

theorem FS.isFile_setFile_self (fs : FS) (p : Path) (c : FileContent) :
    (fs.setFile p c).isFile p = true := by
  simp [FS.setFile, FS.isFile]

theorem FS.isFile_setFile_ne (fs : FS) (p q : Path) (c : FileContent)
    (h : q ≠ p) : (fs.setFile p c).isFile q = fs.isFile q := by
  cases hf : (fs.setFile p c).isFile q with
  | true =>
    obtain ⟨c', hc'⟩ := ((fs.setFile p c).isFile_iff q).1 hf
    simp only [FS.setFile, List.mem_cons] at hc'
    rcases hc' with hc' | hc'
    · exact absurd (congrArg Prod.fst hc') (by simpa using h)
    · exact ((fs.isFile_iff q).2 ⟨c', List.mem_of_mem_filter hc'⟩).symm
  | false =>
    cases hg : fs.isFile q with
    | false => rfl
    | true =>
      obtain ⟨c', hc'⟩ := (fs.isFile_iff q).1 hg
      have hmem : (q, c') ∈ (fs.setFile p c).files := by
        simp only [FS.setFile, List.mem_cons]
        refine Or.inr (List.mem_filter.2 ⟨hc', by simpa using h⟩)
      rw [((fs.setFile p c).isFile_iff q).2 ⟨c', hmem⟩] at hf
      cases hf

/-- Replacing a file that is not on the prefix chain of `d` does not change
whether `d`'s creation is obstructed. -/
theorem any_isFile_setFile (fs : FS) (l : List Path) (p : Path)
    (c : FileContent) (h : p ∉ l) :
    (l.any fun q => (fs.setFile p c).isFile q) = l.any fun q => fs.isFile q := by
  induction l with
  | nil => rfl
  | cons a t ih =>
    have hne : a ≠ p := fun ha => by
      subst ha; exact h (List.mem_cons_self _ _)
    simp only [List.any_cons]
    rw [ih (fun hm => h (List.mem_cons_of_mem a hm)),
      fs.isFile_setFile_ne p a c hne]

theorem FS.dirObstructed_setFile (fs : FS) (d p : Path) (c : FileContent)
    (h : p ∉ pathPrefixes d) :
    (fs.setFile p c).dirObstructed d = fs.dirObstructed d :=
  any_isFile_setFile fs (pathPrefixes d) p c h

theorem FS.dirObstructed_addDirs (fs : FS) (d d' : Path) :
    (fs.addDirs d').dirObstructed d = fs.dirObstructed d := rfl

theorem not_mem_prefixes_dropLast (key q : Path) (hk : key ≠ [])
    (hq : key.length ≤ q.length) : q ∉ pathPrefixes key.dropLast := by
  intro hmem
  have hle := length_le_of_mem_pathPrefixes key.dropLast q hmem
  rw [List.length_dropLast] at hle
  have : 0 < key.length := List.length_pos.2 hk
  omega

theorem metaPath_ne_self (k : Path) : metaPath k ≠ k := by
  match k with
  | [] => simp [metaPath]
  | [s] =>
    simp only [metaPath, ne_eq, List.cons.injEq, and_true]
    intro h
    have hlen := congrArg String.length h
    rw [String.length_append] at hlen
    have h5 : ".meta".length = 5 := rfl
    omega
  | s :: r :: rest =>
    simp only [metaPath, ne_eq, List.cons.injEq, not_and]
    intro _
    exact metaPath_ne_self (r :: rest)

theorem FS.isDir_setFile (fs : FS) (p q : Path) (c : FileContent) :
    (fs.setFile p c).isDir q = fs.isDir q := rfl

theorem FS.isDir_rmFile (fs : FS) (p q : Path) :
    (fs.rmFile p).isDir q = fs.isDir q := rfl

theorem FS.readF_addDirs_eq (fs : FS) (d q : Path) :
    (fs.addDirs d).readF q = fs.readF q := rfl

/-- The shared write path of `createObject` and `putObjectIfMatch`: ensure
the parent directory, write the data artifact, then write the metadata
artifact.  Under the stated side conditions every step succeeds and the
final state holds both artifacts. -/
theorem writeChain (fs : FS) (key : Path) (body : Bytes) (et ct : String)
    (hk : key ≠ [])
    (hdirD : fs.isDir (dataPath key) = false)
    (hdirM : fs.isDir (metaPath key) = false)
    (hobs : fs.dirObstructed (dataPath key).dropLast = false) :
    ∃ fs1 fs2 fs3,
      fs.ensureDir (dataPath key) = some fs1 ∧
      fs1.writeF (dataPath key) (.bytes body) = some fs2 ∧
      writeMeta fs2 key ⟨et, ct⟩ = some fs3 ∧
      fs3.readF (dataPath key) = some (.bytes body) ∧
      fs3.readF (metaPath key) = some (.metaRec ⟨et, ct⟩) ∧
      fs3.isDir (dataPath key) = false := by
  have hDmem : dataPath key ∉ pathPrefixes key.dropLast :=
    not_mem_prefixes_dropLast key key hk le_rfl
  have hMmem : metaPath key ∉ pathPrefixes key.dropLast :=
    not_mem_prefixes_dropLast key (metaPath key) hk
      (by rw [length_metaPath key hk])
  have hDM : dataPath key ≠ metaPath key := fun h => metaPath_ne_self key h.symm
  have h1 : fs.ensureDir (dataPath key) = some (fs.addDirs key.dropLast) := by
    unfold FS.ensureDir FS.mkdirRec
    rw [if_neg (by simp [hobs])]
    rfl
  set fs1 := fs.addDirs key.dropLast with hfs1
  have hd1 : fs1.isDir (dataPath key) = false := by
    rw [hfs1, FS.isDir_addDirs]
    simp [hdirD, hDmem]
  have h2 : fs1.writeF (dataPath key) (.bytes body)
      = some (fs1.setFile (dataPath key) (.bytes body)) := by
    unfold FS.writeF
    rw [if_neg (by simp [hd1])]
  set fs2 := fs1.setFile (dataPath key) (.bytes body) with hfs2
  have hobs2 : fs2.dirObstructed key.dropLast = false := by
    rw [hfs2, FS.dirObstructed_setFile fs1 key.dropLast (dataPath key)
      (.bytes body) hDmem, hfs1, FS.dirObstructed_addDirs]
    exact hobs
  have hens2 : fs2.ensureDir (metaPath key) = some (fs2.addDirs key.dropLast) := by
    unfold FS.ensureDir FS.mkdirRec
    rw [dropLast_metaPath key, if_neg (by simp [hobs2])]
  set fs2a := fs2.addDirs key.dropLast with hfs2a
  have hd2m : fs2.isDir (metaPath key) = false := by
    rw [hfs2, FS.isDir_setFile, hfs1, FS.isDir_addDirs]
    simp [hdirM, hMmem]
  have hdm2 : fs2a.isDir (metaPath key) = false := by
    rw [hfs2a, FS.isDir_addDirs]
    simp [hd2m, hMmem]
  set fs3 := fs2a.setFile (metaPath key) (.metaRec ⟨et, ct⟩) with hfs3
  have h3 : writeMeta fs2 key ⟨et, ct⟩ = some fs3 := by
    unfold writeMeta
    rw [hens2]
    show fs2a.writeF (metaPath key) (.metaRec ⟨et, ct⟩) = some fs3
    unfold FS.writeF
    rw [if_neg (by simp [hdm2]), hfs3]
  have hr1 : fs3.readF (dataPath key) = some (.bytes body) := by
    rw [hfs3, FS.readF_setFile_ne _ _ _ _ hDM, hfs2a, FS.readF_addDirs_eq,
      hfs2, FS.readF_setFile_self]
  have hr2 : fs3.readF (metaPath key) = some (.metaRec ⟨et, ct⟩) := by
    rw [hfs3, FS.readF_setFile_self]
  have hd3 : fs3.isDir (dataPath key) = false := by
    rw [hfs3, FS.isDir_setFile, hfs2a, FS.isDir_addDirs]
    have h2d : fs2.isDir (dataPath key) = false := by
      rw [hfs2, FS.isDir_setFile]
      exact hd1
    simp [h2d, hDmem]
  exact ⟨fs1, fs2, fs3, h1, h2, h3, hr1, hr2, hd3⟩

/-! ## Counting and path lemmas for the lister -/

theorem sum_map_zero {α : Type} (L : List α) :
    (L.map fun _ => (0 : Nat)).sum = 0 := by
  induction L with
  | nil => rfl
  | cons a t ih => simp [ih]

theorem sum_map_add {α : Type} (f g : α → Nat) (L : List α) :
    (L.map fun a => f a + g a).sum = (L.map f).sum + (L.map g).sum := by
  induction L with
  | nil => rfl
  | cons a t ih =>
    simp only [List.map_cons, List.sum_cons, ih]
    omega

theorem countP_eq_sum_map {α : Type} (p : α → Bool) (L : List α) :
    L.countP p = (L.map fun a => if p a then 1 else 0).sum := by
  induction L with
  | nil => rfl
  | cons a t ih =>
    rw [List.countP_cons, List.map_cons, List.sum_cons, ih]
    omega

theorem count_filterMap_eq_countP {α β : Type} [DecidableEq β]
    (f : α → Option β) (L : List α) (x : β) :
    (L.filterMap f).count x = L.countP fun a => decide (f a = some x) := by
  induction L with
  | nil => rfl
  | cons a t ih =>
    cases hf : f a with
    | none =>
      rw [List.filterMap_cons_none hf, List.countP_cons, ih]
      simp [hf]
    | some b =>
      rw [List.filterMap_cons_some hf, List.count_cons, List.countP_cons, ih,
        hf]
      by_cases hb : b = x
      · simp [hb]
      · simp [hb, fun h : x = b => hb h.symm]

theorem count_flatMap_eq_sum {α β : Type} [DecidableEq β]
    (f : α → List β) (L : List α) (x : β) :
    (L.flatMap f).count x = (L.map fun a => (f a).count x).sum := by
  induction L with
  | nil => rfl
  | cons a t ih => simp [List.flatMap_cons, List.count_append, ih]

theorem sum_countP_comm {α β : Type} (ns : List β) (L : List α)
    (q : β → α → Bool) :
    (ns.map fun n => L.countP (q n)).sum
      = (L.map fun a => ns.countP fun n => q n a).sum := by
  induction ns with
  | nil =>
    simp only [List.map_nil, List.sum_nil, List.countP_nil]
    rw [sum_map_zero]
  | cons n t ih =>
    have hpt : ∀ a, (List.countP (fun n' => q n' a) (n :: t))
        = (if q n a then 1 else 0) + List.countP (fun n' => q n' a) t := by
      intro a
      rw [List.countP_cons]
      omega
    simp only [List.map_cons, List.sum_cons, ih, hpt]
    rw [sum_map_add (fun a => if q n a then 1 else 0)
      (fun a => List.countP (fun n' => q n' a) t) L, ← countP_eq_sum_map]

theorem countP_eq_of_unique_key (L : List (Path × FileContent))
    (hnd : (L.map Prod.fst).Nodup) (p : Path) (c : FileContent)
    (hmem : (p, c) ∈ L) (r : Path × FileContent → Bool) :
    (L.countP fun e => decide (e.1 = p) && r e) = if r (p, c) then 1 else 0 := by
  induction L with
  | nil => cases hmem
  | cons e t ih =>
    rcases List.mem_cons.mp hmem with he | hmem'
    · subst he
      rw [List.countP_cons]
      have htail : t.countP (fun e => decide (e.1 = p) && r e) = 0 := by
        rw [List.countP_eq_zero]
        intro a ha
        have hne : a.1 ≠ p := by
          intro h1
          have hmm : a.1 ∈ t.map Prod.fst := List.mem_map_of_mem Prod.fst ha
          rw [h1] at hmm
          exact (List.nodup_cons.mp hnd).1 hmm
        simp [hne]
      simp [htail]
    · have he1 : e.1 ≠ p := by
        intro h1
        exact (List.nodup_cons.mp hnd).1
          (h1 ▸ List.mem_map_of_mem Prod.fst hmem')
      rw [List.countP_cons, ih (List.nodup_cons.mp hnd).2 hmem']
      simp [he1]

theorem find?_eq_of_mem_nodup (L : List (Path × FileContent))
    (hnd : (L.map Prod.fst).Nodup) (p : Path) (c : FileContent)
    (h : (p, c) ∈ L) :
    L.find? (fun e => e.1 = p) = some (p, c) := by
  induction L with
  | nil => cases h
  | cons e t ih =>
    rcases List.mem_cons.mp h with he | hmem'
    · subst he
      rw [List.find?_cons_of_pos _ (by simp)]
    · have he1 : e.1 ≠ p := by
        intro h1
        exact (List.nodup_cons.mp hnd).1
          (h1 ▸ List.mem_map_of_mem Prod.fst hmem')
      rw [List.find?_cons_of_neg _ (by simpa using he1),
        ih (List.nodup_cons.mp hnd).2 hmem']

theorem FS.readF_eq_of_mem_nodup (fs : FS)
    (hnd : (fs.files.map Prod.fst).Nodup) (p : Path) (c : FileContent)
    (h : (p, c) ∈ fs.files) : fs.readF p = some c := by
  unfold FS.readF
  rw [find?_eq_of_mem_nodup fs.files hnd p c h]
  rfl

theorem le_foldr_max (l : List Nat) (x : Nat) (h : x ∈ l) :
    x ≤ l.foldr max 0 := by
  induction l with
  | nil => cases h
  | cons a t ih =>
    rcases List.mem_cons.mp h with rfl | h'
    · exact le_max_left _ _
    · exact le_trans (ih h') (le_max_right _ _)

theorem length_lt_depthBound_of_dir (fs : FS) (d : Path) (h : d ∈ fs.dirs) :
    d.length < fs.depthBound := by
  unfold FS.depthBound
  have hmem : d.length
      ∈ (fs.files.map fun e => e.1.length) ++ fs.dirs.map List.length :=
    List.mem_append.mpr (Or.inr (List.mem_map_of_mem List.length h))
  have := le_foldr_max _ _ hmem
  omega

theorem length_lt_depthBound_of_file (fs : FS) (e : Path × FileContent)
    (h : e ∈ fs.files) : e.1.length < fs.depthBound := by
  unfold FS.depthBound
  have hmem : e.1.length
      ∈ (fs.files.map fun e => e.1.length) ++ fs.dirs.map List.length :=
    List.mem_append.mpr (Or.inl (List.mem_map_of_mem _ h))
  have := le_foldr_max _ _ hmem
  omega

theorem take_succ_of_prefix (d p : Path) (h : d <+: p)
    (hlt : d.length < p.length) :
    p.take (d.length + 1) = d ++ [p.getD d.length ""] := by
  obtain ⟨t, rfl⟩ := h
  cases t with
  | nil => simp at hlt
  | cons a t' =>
    rw [List.take_append_eq_append_take, List.take_all_of_le (by omega),
      List.getD_append_right d (a :: t') "" d.length le_rfl]
    simp

theorem eq_child_of_prefixed (d p : Path) (n : String)
    (h : (d ++ [n]) <+: p) : p.getD d.length "" = n ∧ d <+: p := by
  have hd : d <+: p := (List.prefix_append d [n]).trans h
  have hlen : d.length + 1 ≤ p.length := by
    have := h.length_le
    simpa using this
  have htake := List.prefix_iff_eq_take.mp h
  rw [show (d ++ [n]).length = d.length + 1 by simp,
    take_succ_of_prefix d p hd (by omega)] at htake
  have := List.append_cancel_left htake
  exact ⟨(by injection this with h1; exact h1.symm), hd⟩

theorem childName_eq_some (d q : Path) (n : String) :
    childName d q = some n ↔ q = d ++ [n] := by
  unfold childName
  by_cases h : q.length = d.length + 1 ∧ d <+: q
  · rw [if_pos h]
    obtain ⟨hlen, t, rfl⟩ := h
    have ht : t.length = 1 := by
      rw [List.length_append] at hlen
      omega
    cases t with
    | nil => simp at ht
    | cons a t' =>
      cases t' with
      | cons b t'' => simp at ht
      | nil =>
        rw [List.getLast?_concat]
        constructor
        · intro hsome
          injection hsome with h1
          rw [h1]
        · intro happ
          have := List.append_cancel_left happ
          injection this with h1
          rw [h1]
  · rw [if_neg h]
    constructor
    · intro hc; cases hc
    · intro hq
      subst hq
      exact absurd ⟨by simp, List.prefix_append d [n]⟩ h

theorem childNames_nodup (fs : FS) (d : Path) : (fs.childNames d).Nodup :=
  List.nodup_dedup _

theorem mem_childNames_iff (fs : FS) (d : Path) (n : String) :
    n ∈ fs.childNames d
      ↔ fs.isFile (d ++ [n]) = true ∨ fs.isDir (d ++ [n]) = true := by
  unfold FS.childNames
  rw [List.mem_dedup, List.mem_append]
  simp only [List.mem_filterMap, childName_eq_some]
  constructor
  · rintro (⟨e, he, heq⟩ | ⟨q, hq, rfl⟩)
    · exact Or.inl ((fs.isFile_iff _).mpr ⟨e.2, by rw [← heq]; exact he⟩)
    · exact Or.inr ((fs.isDir_iff _).mpr hq)
  · rintro (hf | hd)
    · obtain ⟨c, hc⟩ := (fs.isFile_iff _).mp hf
      exact Or.inl ⟨(d ++ [n], c), hc, rfl⟩
    · exact Or.inr ⟨d ++ [n], (fs.isDir_iff _).mp hd, rfl⟩

theorem child_mem_childNames (fs : FS) (hwf : fs.WF) (d : Path)
    (e : Path × FileContent) (he : e ∈ fs.files) (hpre : d <+: e.1)
    (hlt : d.length < e.1.length) :
    e.1.getD d.length "" ∈ fs.childNames d := by
  have ht := take_succ_of_prefix d e.1 hpre hlt
  rcases Nat.lt_or_ge (d.length + 1) e.1.length with hcase | hcase
  · have hq : e.1.take (d.length + 1) ∈ fs.dirs :=
      hwf.2.1 e he (d.length + 1) hcase
    rw [mem_childNames_iff]
    right
    rw [FS.isDir_iff, ← ht]
    exact hq
  · have hfull : e.1.take (d.length + 1) = e.1 :=
      List.take_all_of_le (by omega)
    rw [mem_childNames_iff]
    left
    rw [FS.isFile_iff]
    refine ⟨e.2, ?_⟩
    rw [← ht, hfull]
    exact he

theorem specF_eq_some_iff (pre : Path) (e : Path × FileContent)
    (x : ListEntry) :
    specF pre e = some x
      ↔ pre <+: e.1 ∧ ¬(isMetaName e.1 = true) ∧ entryOf e = x := by
  unfold specF
  by_cases hc : pre <+: e.1 ∧ ¬(isMetaName e.1 = true)
  · rw [if_pos hc]
    constructor
    · intro h
      injection h with h1
      exact ⟨hc.1, hc.2, h1⟩
    · rintro ⟨-, -, h3⟩
      rw [h3]
  · rw [if_neg hc]
    constructor
    · intro h; cases h
    · rintro ⟨h1, h2, -⟩
      exact absurd ⟨h1, h2⟩ hc

/-- The crux of the listing proof: for a single file table row, the walk's
children of a directory `d` contain exactly one child through which the row
is listed — or none when the row is not listed under `d` at all. -/
theorem countP_childNames_specF (fs : FS) (hwf : fs.WF) (d : Path)
    (hd : fs.isDir d = true) (e : Path × FileContent) (he : e ∈ fs.files)
    (x : ListEntry) :
    ((fs.childNames d).countP fun n => decide (specF (d ++ [n]) e = some x))
      = if specF d e = some x then 1 else 0 := by
  by_cases hbase : ¬(isMetaName e.1 = true) ∧ entryOf e = x
  · obtain ⟨hnm, hx⟩ := hbase
    have hs : ∀ pre, (specF pre e = some x) ↔ pre <+: e.1 := by
      intro pre
      rw [specF_eq_some_iff]
      exact ⟨fun h => h.1, fun h => ⟨h, hnm, hx⟩⟩
    by_cases hpre : d <+: e.1
    · rw [if_pos ((hs d).mpr hpre)]
      have hne : e.1 ≠ d := by
        intro h1
        have hmm : d ∈ fs.dirs := (fs.isDir_iff d).mp hd
        rw [← h1] at hmm
        exact hwf.2.2 e he hmm
      have hlt : d.length < e.1.length := by
        have hle := hpre.length_le
        rcases Nat.lt_or_ge d.length e.1.length with h | h
        · exact h
        · exfalso
          have htk := List.prefix_iff_eq_take.mp hpre
          have hl : d.length = e.1.length := by omega
          rw [hl, List.take_length] at htk
          exact hne htk.symm
      have hmemn : e.1.getD d.length "" ∈ fs.childNames d :=
        child_mem_childNames fs hwf d e he hpre hlt
      have hiff : ∀ n, (specF (d ++ [n]) e = some x)
          ↔ n = e.1.getD d.length "" := by
        intro n
        rw [hs]
        constructor
        · intro hp
          exact ((eq_child_of_prefixed d e.1 n hp).1).symm
        · rintro rfl
          rw [← take_succ_of_prefix d e.1 hpre hlt]
          exact List.take_prefix _ _
      have hpq : ∀ n ∈ fs.childNames d,
          (decide (specF (d ++ [n]) e = some x) = true)
            ↔ ((n == e.1.getD d.length "") = true) := by
        intro n hn
        simp [hiff n]
      rw [List.countP_congr hpq]
      exact List.count_eq_one_of_mem (childNames_nodup fs d) hmemn
    · rw [if_neg (fun hc => hpre ((hs d).mp hc)), List.countP_eq_zero]
      intro n hn
      simp only [decide_eq_true_eq]
      intro hsp
      exact hpre (eq_child_of_prefixed d e.1 n ((hs (d ++ [n])).mp hsp)).2
  · have hz : ∀ pre, ¬(specF pre e = some x) := by
      intro pre hsp
      rw [specF_eq_some_iff] at hsp
      exact hbase ⟨hsp.2.1, hsp.2.2⟩
    rw [if_neg (hz d), List.countP_eq_zero]
    intro n hn
    simp only [decide_eq_true_eq]
    exact hz (d ++ [n])

theorem walkGo_succ (fs : FS) (fuel : Nat) (d : Path) :
    fs.walkGo (fuel + 1) d = (fs.childNames d).flatMap fun n =>
      if fs.isDir (d ++ [n]) then fs.walkGo fuel (d ++ [n])
      else if fs.isFile (d ++ [n]) ∧ ¬(n.endsWith ".meta") then
        [⟨joinPath (d ++ [n]), fs.fileSize (d ++ [n])⟩]
      else [] := rfl

/-- The walk, given enough fuel, lists each subtree file row the same number
of times as the specification (namely once when it matches). -/
theorem walkGo_count (fs : FS) (hwf : fs.WF) :
    ∀ (fuel : Nat) (d : Path), fs.isDir d = true →
      fs.depthBound ≤ d.length + fuel →
      ∀ x : ListEntry, (fs.walkGo fuel d).count x
        = fs.files.countP fun e => decide (specF d e = some x) := by
  intro fuel
  induction fuel with
  | zero =>
    intro d hd hb x
    exfalso
    have := length_lt_depthBound_of_dir fs d ((fs.isDir_iff d).mp hd)
    omega
  | succ fuel ih =>
    intro d hd hb x
    rw [walkGo_succ, count_flatMap_eq_sum]
    have hbranch : ∀ n ∈ fs.childNames d,
        ((if fs.isDir (d ++ [n]) then fs.walkGo fuel (d ++ [n])
          else if fs.isFile (d ++ [n]) ∧ ¬(n.endsWith ".meta") then
            [(⟨joinPath (d ++ [n]), fs.fileSize (d ++ [n])⟩ : ListEntry)]
          else []).count x)
          = fs.files.countP fun e => decide (specF (d ++ [n]) e = some x) := by
      intro n hn
      by_cases hdir : fs.isDir (d ++ [n]) = true
      · rw [if_pos hdir]
        exact ih (d ++ [n]) hdir (by simp only [List.length_append,
          List.length_cons, List.length_nil]; omega) x
      · rw [if_neg hdir]
        have hfile : fs.isFile (d ++ [n]) = true := by
          rcases (mem_childNames_iff fs d n).mp hn with h | h
          · exact h
          · exact absurd h hdir
        obtain ⟨c, hc⟩ := (fs.isFile_iff _).mp hfile
        have hrf : fs.readF (d ++ [n]) = some c :=
          fs.readF_eq_of_mem_nodup hwf.1 _ c hc
        have hcong : ∀ e ∈ fs.files,
            (decide (specF (d ++ [n]) e = some x) = true)
              ↔ ((decide (e.1 = d ++ [n])
                  && decide (specF (d ++ [n]) e = some x)) = true) := by
          intro e he
          by_cases hsp : specF (d ++ [n]) e = some x
          · have hpre : (d ++ [n]) <+: e.1 :=
              ((specF_eq_some_iff _ e x).mp hsp).1
            have hkey : e.1 = d ++ [n] := by
              rcases Nat.lt_or_ge (d ++ [n]).length e.1.length with hl | hl
              · exfalso
                have hq : e.1.take ((d ++ [n]).length) ∈ fs.dirs :=
                  hwf.2.1 e he _ hl
                rw [← List.prefix_iff_eq_take.mp hpre] at hq
                exact hdir ((fs.isDir_iff _).mpr hq)
              · have hle := hpre.length_le
                have hl2 : (d ++ [n]).length = e.1.length := by omega
                have := List.prefix_iff_eq_take.mp hpre
                rw [hl2, List.take_length] at this
                exact this.symm
            simp [hsp, hkey]
          · simp [hsp]
        rw [List.countP_congr hcong,
          countP_eq_of_unique_key fs.files hwf.1 (d ++ [n]) c hc
            (fun e => decide (specF (d ++ [n]) e = some x))]
        have hmn : isMetaName (d ++ [n]) = n.endsWith ".meta" := by
          unfold isMetaName
          rw [List.getLast?_concat]
        by_cases hmeta : n.endsWith ".meta" = true
        · rw [if_neg (fun hcnd => hcnd.2 hmeta)]
          rw [if_neg (by
            intro hsp
            have hsp' := of_decide_eq_true hsp
            have hcm := ((specF_eq_some_iff _ _ x).mp hsp').2.1
            rw [hmn] at hcm
            exact hcm hmeta)]
          rfl
        · rw [if_pos ⟨hfile, by simp [hmeta]⟩]
          have hsz : fs.fileSize (d ++ [n]) = c.toBytes.length := by
            unfold FS.fileSize
            rw [hrf]
          have hspec : specF (d ++ [n]) (d ++ [n], c)
              = some ⟨joinPath (d ++ [n]), c.toBytes.length⟩ := by
            unfold specF
            rw [if_pos ⟨List.prefix_refl _, by
              show ¬(isMetaName (d ++ [n]) = true)
              rw [hmn]
              simp [hmeta]⟩]
            rfl
          rw [hsz, hspec]
          by_cases hxe : (⟨joinPath (d ++ [n]), c.toBytes.length⟩ : ListEntry) = x
          · rw [if_pos (by simp [hxe]), hxe]
            simp
          · rw [if_neg (by simp [hxe])]
            simp [List.count_cons, hxe]
    rw [List.map_congr_left hbranch,
      sum_countP_comm (fs.childNames d) fs.files
        (fun n e => decide (specF (d ++ [n]) e = some x))]
    have hpoint : ∀ e ∈ fs.files,
        ((fs.childNames d).countP fun n => decide (specF (d ++ [n]) e = some x))
          = if (fun e => decide (specF d e = some x)) e then 1 else 0 := by
      intro e he
      rw [countP_childNames_specF fs hwf d hd e he x]
      by_cases h : specF d e = some x <;> simp [h]
    rw [List.map_congr_left hpoint, ← countP_eq_sum_map]

/-! ## Claim theorems -/

/-- C1: when the stored metadata record for the key is absent or its etag
differs from the supplied expected etag, `putObjectIfMatch` fails with
`StaleDataError` and performs no write: the file system — in particular both
artifacts of the key — is exactly as before the call. -/
theorem putObjectIfMatch_stale_no_write (fs : FS) (key : Path) (body : Bytes)
    (etag contentType : String)
    (h : ∀ m, readMeta fs key = some m → m.etag ≠ etag) :
    putObjectIfMatch fs key body etag contentType = (fs, .error .staleData) ∧
    (putObjectIfMatch fs key body etag contentType).1.readF (dataPath key)
      = fs.readF (dataPath key) ∧
    (putObjectIfMatch fs key body etag contentType).1.readF (metaPath key)
      = fs.readF (metaPath key) := by
  have hput : putObjectIfMatch fs key body etag contentType
      = (fs, .error .staleData) := by
    unfold putObjectIfMatch
    cases hm : readMeta fs key with
    | none => rfl
    | some m => simp [h m hm]
  exact ⟨hput, by rw [hput], by rw [hput]⟩

/-- C3: `getObjectIfMatch` checks data-artifact existence first — when the
data artifact is absent it fails with the `NoSuchKey` error (never with
staleness); when it exists but the metadata record is absent or mismatched
it fails with `StaleDataError` (an error distinct from `NoSuchKey`); and when
the guard passes it returns exactly `getObject`'s result. -/
theorem getObjectIfMatch_checks_existence_first (fs : FS) (key : Path)
    (etag : String) :
    (fs.access (dataPath key) = false →
      getObjectIfMatch fs key etag = .error .noSuchKey) ∧
    (fs.access (dataPath key) = true →
      (∀ m, readMeta fs key = some m → m.etag ≠ etag) →
      getObjectIfMatch fs key etag = .error .staleData) ∧
    (∀ m, fs.access (dataPath key) = true → readMeta fs key = some m →
      m.etag = etag → getObjectIfMatch fs key etag = getObject fs key) ∧
    StoreErr.staleData ≠ StoreErr.noSuchKey := by
  refine ⟨?_, ?_, ?_, by decide⟩
  · intro hacc
    unfold getObjectIfMatch
    rw [if_pos (by simp [hacc])]
  · intro hacc hmis
    unfold getObjectIfMatch
    rw [if_neg (by simp [hacc])]
    cases hm : readMeta fs key with
    | none => rfl
    | some m => simp [hmis m hm]
  · intro m hacc hmt hmatch
    unfold getObjectIfMatch
    rw [if_neg (by simp [hacc]), hmt]
    simp [hmatch]

/-- C8: when the data artifact exists but the metadata record is absent or
unparsable, `getObject` still succeeds, returning the stored bytes with a
`null` etag. -/
theorem getObject_tolerates_missing_meta (fs : FS) (key : Path) (b : Bytes)
    (hfile : fs.readF (dataPath key) = some (.bytes b))
    (hdir : fs.isDir (dataPath key) = false)
    (hmeta : readMeta fs key = none) :
    getObject fs key = .ok (b, none) := by
  unfold getObject FS.readFile
  rw [if_neg (by simp [hdir]), hfile, hmeta]
  rfl

/-- C6: `deleteObject` removes both the data and the metadata artifact,
treats a missing file during removal as success (so deleting a non-existent
key succeeds), and its response carries a `null` etag. -/
theorem deleteObject_removes_both_idempotent (fs : FS) (key : Path)
    (hd : fs.isDir (dataPath key) = false)
    (hm : fs.isDir (metaPath key) = false) :
    (deleteObject fs key).2 = .ok none ∧
    (deleteObject fs key).1.readF (dataPath key) = none ∧
    (deleteObject fs key).1.readF (metaPath key) = none := by
  have hDM : dataPath key ≠ metaPath key := fun h => metaPath_ne_self key h.symm
  have hstep : ∀ fs1 : FS, fs1.isDir (metaPath key) = false →
      (deleteObject.deleteMetaStep fs1 key).2 = .ok none ∧
      (deleteObject.deleteMetaStep fs1 key).1.readF (metaPath key) = none ∧
      (deleteObject.deleteMetaStep fs1 key).1.readF (dataPath key)
        = fs1.readF (dataPath key) := by
    intro fs1 hm1
    cases hf1 : fs1.isFile (metaPath key) with
    | false =>
      have hu : fs1.unlink (metaPath key) = .error .enoent := by
        unfold FS.unlink
        rw [if_neg (by simp [hm1]), if_neg (by simp [hf1])]
      have hred : deleteObject.deleteMetaStep fs1 key = (fs1, .ok none) := by
        unfold deleteObject.deleteMetaStep
        rw [hu]
      rw [hred]
      exact ⟨rfl, fs1.readF_eq_none_of_isFile_eq_false _ hf1, rfl⟩
    | true =>
      have hu : fs1.unlink (metaPath key) = .ok (fs1.rmFile (metaPath key)) := by
        unfold FS.unlink
        rw [if_neg (by simp [hm1]), if_pos (by simp [hf1])]
      have hred : deleteObject.deleteMetaStep fs1 key
          = (fs1.rmFile (metaPath key), .ok none) := by
        unfold deleteObject.deleteMetaStep
        rw [hu]
      rw [hred]
      exact ⟨rfl, fs1.readF_rmFile_self _,
        fs1.readF_rmFile_ne _ _ hDM⟩
  cases hf : fs.isFile (dataPath key) with
  | false =>
    have hu : fs.unlink (dataPath key) = .error .enoent := by
      unfold FS.unlink
      rw [if_neg (by simp [hd]), if_neg (by simp [hf])]
    have hred : deleteObject fs key = deleteObject.deleteMetaStep fs key := by
      unfold deleteObject
      rw [hu]
    obtain ⟨h1, h2, h3⟩ := hstep fs hm
    exact ⟨hred ▸ h1, by
      rw [hred, h3]
      exact fs.readF_eq_none_of_isFile_eq_false _ hf, hred ▸ h2⟩
  | true =>
    have hu : fs.unlink (dataPath key) = .ok (fs.rmFile (dataPath key)) := by
      unfold FS.unlink
      rw [if_neg (by simp [hd]), if_pos (by simp [hf])]
    have hred : deleteObject fs key
        = deleteObject.deleteMetaStep (fs.rmFile (dataPath key)) key := by
      unfold deleteObject
      rw [hu]
    obtain ⟨h1, h2, h3⟩ := hstep (fs.rmFile (dataPath key))
      (by rw [FS.isDir_rmFile]; exact hm)
    exact ⟨hred ▸ h1, by
      rw [hred, h3]
      exact fs.readF_rmFile_self _, hred ▸ h2⟩

/-- C9: `putObjectIfMatch` never checks that the data artifact exists: when
the metadata record matches the expected etag, the call succeeds even though
the data artifact is absent, creating the data file and fresh metadata like
an ordinary update. -/
theorem putObjectIfMatch_no_existence_check (fs : FS) (key : Path)
    (body : Bytes) (etag ct : String) (m : Meta)
    (hk : key ≠ [])
    (hmeta : readMeta fs key = some m)
    (hmatch : m.etag = etag)
    (habsent : fs.readF (dataPath key) = none)
    (hdirD : fs.isDir (dataPath key) = false)
    (hdirM : fs.isDir (metaPath key) = false)
    (hobs : fs.dirObstructed (dataPath key).dropLast = false) :
    (putObjectIfMatch fs key body etag ct).2 = .ok (calculateEtag body) ∧
    (putObjectIfMatch fs key body etag ct).1.readF (dataPath key)
      = some (.bytes body) ∧
    readMeta (putObjectIfMatch fs key body etag ct).1 key
      = some ⟨calculateEtag body, ct⟩ := by
  obtain ⟨fs1, fs2, fs3, h1, h2, h3, hr1, hr2, -⟩ :=
    writeChain fs key body (calculateEtag body) ct hk hdirD hdirM hobs
  have hred : putObjectIfMatch fs key body etag ct
      = (fs3, .ok (calculateEtag body)) := by
    unfold putObjectIfMatch
    rw [hmeta]
    simp [hmatch, h1, h2, h3]
  rw [hred]
  refine ⟨rfl, hr1, ?_⟩
  unfold readMeta
  rw [hr2]

/-- C10: `createObject`'s existence check inspects only the data artifact:
with the data artifact absent but an orphaned metadata sidecar present, the
call succeeds and overwrites the stale record with the fresh etag and
content type. -/
theorem createObject_overwrites_orphan_meta (fs : FS) (key : Path)
    (body : Bytes) (ct : String) (mOld : Meta)
    (hk : key ≠ [])
    (hacc : fs.access (dataPath key) = false)
    (hmeta : readMeta fs key = some mOld)
    (hdirM : fs.isDir (metaPath key) = false)
    (hobs : fs.dirObstructed (dataPath key).dropLast = false) :
    (createObject fs key body ct).2 = .ok (calculateEtag body) ∧
    (createObject fs key body ct).1.readF (dataPath key)
      = some (.bytes body) ∧
    readMeta (createObject fs key body ct).1 key
      = some ⟨calculateEtag body, ct⟩ := by
  have hdirD : fs.isDir (dataPath key) = false := by
    have hparts := hacc
    unfold FS.access at hparts
    exact (Bool.or_eq_false_iff.mp hparts).2
  obtain ⟨fs1, fs2, fs3, h1, h2, h3, hr1, hr2, -⟩ :=
    writeChain fs key body (calculateEtag body) ct hk hdirD hdirM hobs
  have hred : createObject fs key body ct = (fs3, .ok (calculateEtag body)) := by
    unfold createObject
    rw [if_neg (by simp [hacc])]
    simp [h1, h2, h3]
  rw [hred]
  refine ⟨rfl, hr1, ?_⟩
  unfold readMeta
  rw [hr2]

/-- Inversion of a successful `createObject`: the returned etag is the MD5
etag of the body, and the final state holds both artifacts. -/
theorem createObject_ok_inv (fs fs' : FS) (key : Path) (body : Bytes)
    (ct e : String)
    (h : createObject fs key body ct = (fs', .ok e)) :
    e = calculateEtag body ∧
    fs'.readF (dataPath key) = some (.bytes body) ∧
    readMeta fs' key = some ⟨calculateEtag body, ct⟩ ∧
    fs'.isDir (dataPath key) = false ∧
    fs'.isFile (dataPath key) = true := by
  unfold createObject at h
  by_cases hacc : fs.access (dataPath key) = true
  · rw [if_pos hacc] at h
    exact absurd (congrArg Prod.snd h) (by simp)
  rw [if_neg hacc] at h
  cases h1 : fs.ensureDir (dataPath key) with
  | none =>
    rw [h1] at h
    exact absurd (congrArg Prod.snd h) (by simp)
  | some fs1 =>
  rw [h1] at h
  have hA : (match fs1.writeF (dataPath key) (FileContent.bytes body) with
      | none => (fs1, Except.error StoreErr.ioFailure)
      | some fs2 =>
        match writeMeta fs2 key ⟨calculateEtag body, ct⟩ with
        | none => (fs2, Except.error StoreErr.ioFailure)
        | some fs3 => (fs3, Except.ok (calculateEtag body)))
      = (fs', Except.ok e) := h
  clear h
  cases h2 : fs1.writeF (dataPath key) (FileContent.bytes body) with
  | none =>
    rw [h2] at hA
    exact absurd (congrArg Prod.snd hA) (by simp)
  | some fs2 =>
  rw [h2] at hA
  have hB : (match writeMeta fs2 key ⟨calculateEtag body, ct⟩ with
      | none => (fs2, Except.error StoreErr.ioFailure)
      | some fs3 => (fs3, Except.ok (calculateEtag body)))
      = (fs', Except.ok e) := hA
  clear hA
  cases h3 : writeMeta fs2 key ⟨calculateEtag body, ct⟩ with
  | none =>
    rw [h3] at hB
    exact absurd (congrArg Prod.snd hB) (by simp)
  | some fs3 =>
  rw [h3] at hB
  have hfs : fs3 = fs' := congrArg Prod.fst hB
  have he : e = calculateEtag body := by
    have hsnd := congrArg Prod.snd hB
    simp only [Except.ok.injEq] at hsnd
    exact hsnd.symm
  subst hfs
  unfold FS.ensureDir FS.mkdirRec at h1
  by_cases hobs : fs.dirObstructed (dataPath key).dropLast = true
  · rw [if_pos hobs] at h1; cases h1
  rw [if_neg hobs] at h1
  injection h1 with h1e
  unfold FS.writeF at h2
  by_cases hd1 : fs1.isDir (dataPath key) = true
  · rw [if_pos hd1] at h2; cases h2
  rw [if_neg hd1] at h2
  injection h2 with h2e
  have hd1f : fs1.isDir (dataPath key) = false := by simpa using hd1
  have hk : key ≠ [] := by
    intro hkey
    subst hkey
    apply hd1
    rw [← h1e, FS.isDir_addDirs]
    have hmem : (dataPath ([] : Path))
        ∈ pathPrefixes (dataPath ([] : Path)).dropLast := by decide
    simp [hmem]
  have hDmem : dataPath key ∉ pathPrefixes key.dropLast :=
    not_mem_prefixes_dropLast key key hk le_rfl
  have hDM : dataPath key ≠ metaPath key := fun hkm => metaPath_ne_self key hkm.symm
  unfold writeMeta FS.ensureDir FS.mkdirRec at h3
  rw [dropLast_metaPath key] at h3
  by_cases hobs2 : fs2.dirObstructed key.dropLast = true
  · rw [if_pos hobs2] at h3; cases h3
  rw [if_neg hobs2] at h3
  have hC : (fs2.addDirs key.dropLast).writeF (metaPath key)
      (FileContent.metaRec ⟨calculateEtag body, ct⟩) = some fs3 := h3
  clear h3
  unfold FS.writeF at hC
  by_cases hdm2 : (fs2.addDirs key.dropLast).isDir (metaPath key) = true
  · rw [if_pos hdm2] at hC; cases hC
  rw [if_neg hdm2] at hC
  injection hC with h3e
  have hr1 : fs3.readF (dataPath key) = some (.bytes body) := by
    rw [← h3e, FS.readF_setFile_ne _ _ _ _ hDM, FS.readF_addDirs_eq, ← h2e,
      FS.readF_setFile_self]
  refine ⟨he, hr1, ?_, ?_, fs3.isFile_of_readF _ _ hr1⟩
  · unfold readMeta
    rw [show fs3.readF (metaPath key)
        = some (FileContent.metaRec ⟨calculateEtag body, ct⟩) from by
      rw [← h3e, FS.readF_setFile_self]]
  · rw [← h3e, FS.isDir_setFile, FS.isDir_addDirs]
    have h2d : fs2.isDir (dataPath key) = false := by
      rw [← h2e, FS.isDir_setFile]
      exact hd1f
    simp [h2d, hDmem]

/-- C2: `createObject` on an existing data artifact fails with
`KeyExistsError` and performs no mutation; in particular, after a first
successful `createObject` a second one on the same key fails with
`KeyExistsError` and the stored content remains the first body. -/
theorem createObject_keyExists_guard (fs fs1 : FS) (key : Path)
    (B1 B2 : Bytes) (ct1 ct2 e1 : String) :
    (fs.access (dataPath key) = true →
      createObject fs key B2 ct2 = (fs, .error .keyExists)) ∧
    (createObject fs key B1 ct1 = (fs1, .ok e1) →
      createObject fs1 key B2 ct2 = (fs1, .error .keyExists) ∧
      fs1.readF (dataPath key) = some (.bytes B1)) := by
  constructor
  · intro hacc
    unfold createObject
    rw [if_pos hacc]
  · intro h1
    obtain ⟨-, hread, -, -, hfile⟩ := createObject_ok_inv fs fs1 key B1 ct1 e1 h1
    refine ⟨?_, hread⟩
    unfold createObject
    rw [if_pos (by simp [FS.access, hfile])]

/-- C4: after a successful `createObject` returning etag `e1`, `getObject`
succeeds and returns exactly the stored bytes together with `e1`. -/
theorem createObject_then_getObject (fs fs' : FS) (key : Path) (B : Bytes)
    (ct e1 : String)
    (h : createObject fs key B ct = (fs', .ok e1)) :
    getObject fs' key = .ok (B, some e1) := by
  obtain ⟨he, hread, hmeta, hdir, -⟩ := createObject_ok_inv fs fs' key B ct e1 h
  unfold getObject FS.readFile
  rw [if_neg (by simp [hdir]), hread, hmeta]
  simp [FileContent.toBytes, he]

/-- C5 (amended): the etag calculator is deterministic — a pure function of
the content bytes — and always yields a 34-character quoted hex token; it is
NOT injective (see the collision counterexample). -/
theorem calculateEtag_deterministic (C : Bytes) :
    calculateEtag C = calculateEtag C ∧ (calculateEtag C).length = 34 := by
  refine ⟨rfl, ?_⟩
  have hflat : ∀ l : Bytes, (l.flatMap hexByte).length = 2 * l.length := by
    intro l
    induction l with
    | nil => rfl
    | cons a t ih =>
      simp only [List.flatMap_cons, List.length_append, ih, hexByte,
        List.length_cons, List.length_nil]
      omega
  have h16 : (md5Digest C).length = 16 := by
    unfold md5Digest
    rcases hst : md5State C with ⟨a, b, c, d⟩
    simp
  have hhex : (md5Hex C).length = 32 := by
    have : (md5Hex C).length = ((md5Digest C).flatMap hexByte).length := rfl
    rw [this, hflat, h16]
  unfold calculateEtag
  rw [String.length_append, String.length_append, hhex]
  rfl

set_option maxRecDepth 1000000 in
/-- C5 counterexample: `calculateEtag` is not injective on content — the two
distinct 128-byte messages of the classic MD5 collision receive the same
etag. -/
theorem calculateEtag_not_injective :
    ¬ ∀ C1 C2 : Bytes, C1 ≠ C2 → calculateEtag C1 ≠ calculateEtag C2 := by
  intro hinj
  have hdig : md5Digest wangA = md5Digest wangB := by decide
  exact hinj wangA wangB (by decide)
    (by simp only [calculateEtag, md5Hex, hdig])

/-! ## Witnesses: the theorems above applied at concrete states -/

/-- C1 witness: a stale put on the empty store. -/
theorem putObjectIfMatch_stale_no_write_witness :
    putObjectIfMatch exFS0 ["k"] [] "\"x\"" "application/json"
      = (exFS0, .error .staleData) :=
  (putObjectIfMatch_stale_no_write exFS0 ["k"] [] "\"x\"" "application/json"
    (fun m hm => by
      rw [show readMeta exFS0 ["k"] = none from rfl] at hm
      cases hm)).1

/-- C2 witness: creating over an existing key fails; after a successful
create, a second create fails and the first body is still stored. -/
theorem createObject_keyExists_guard_witness :
    createObject exFSfull ["k"] [1, 2] "application/json"
      = (exFSfull, .error .keyExists) ∧
    (createObject exFS1c ["k"] [1] "application/json"
      = (exFS1c, .error .keyExists) ∧
     exFS1c.readF (dataPath ["k"]) = some (.bytes exBytes1)) :=
  ⟨(createObject_keyExists_guard exFSfull exFS1c ["k"] exBytes1 [1, 2]
      "text/plain" "application/json" exEtag1).1 (by decide),
   (createObject_keyExists_guard exFS0 exFS1c ["k"] exBytes1 [1]
      "text/plain" "application/json" exEtag1).2 (by decide)⟩

/-- C3 witness: absent data artifact gives `NoSuchKey`; mismatched etag with
present data gives `StaleDataError`; a matching etag delegates to
`getObject`. -/
theorem getObjectIfMatch_checks_existence_first_witness :
    getObjectIfMatch exFS0 ["k"] "\"x\"" = .error .noSuchKey ∧
    getObjectIfMatch exFSfull ["k"] "\"x\"" = .error .staleData ∧
    getObjectIfMatch exFSfull ["k"] exEtag1 = getObject exFSfull ["k"] :=
  ⟨(getObjectIfMatch_checks_existence_first exFS0 ["k"] "\"x\"").1 (by decide),
   (getObjectIfMatch_checks_existence_first exFSfull ["k"] "\"x\"").2.1
     (by decide)
     (fun m hm => by
       rw [show readMeta exFSfull ["k"] = some exMeta1 from rfl] at hm
       injection hm with h2
       subst h2
       decide),
   (getObjectIfMatch_checks_existence_first exFSfull ["k"] exEtag1).2.2.1
     exMeta1 (by decide) rfl (by decide)⟩

/-- C4 witness: create `"hello"` at `k`, then read it back with its etag. -/
theorem createObject_then_getObject_witness :
    getObject exFS1c ["k"] = .ok (exBytes1, some exEtag1) :=
  createObject_then_getObject exFS0 exFS1c ["k"] exBytes1 "text/plain"
    exEtag1 (by decide)

/-- C6 witness: deleting key `k` removes both artifacts and reports a null
etag. -/
theorem deleteObject_removes_both_idempotent_witness :
    (deleteObject exFSfull ["k"]).2 = .ok none ∧
    (deleteObject exFSfull ["k"]).1.readF (dataPath ["k"]) = none ∧
    (deleteObject exFSfull ["k"]).1.readF (metaPath ["k"]) = none :=
  deleteObject_removes_both_idempotent exFSfull ["k"] (by decide) (by decide)

/-- C8 witness: data artifact present, metadata artifact absent — the read
succeeds with a null etag. -/
theorem getObject_tolerates_missing_meta_witness :
    getObject exFSnometa ["k"] = .ok (exBytes1, none) :=
  getObject_tolerates_missing_meta exFSnometa ["k"] exBytes1 (by decide)
    (by decide) (by decide)

/-- C9 witness: metadata matches but the data artifact is absent — the
guarded put still succeeds and creates the data file. -/
theorem putObjectIfMatch_no_existence_check_witness :
    (putObjectIfMatch exFSorphan ["k"] [1] exEtag1 "text/plain").2
      = .ok (calculateEtag [1]) ∧
    (putObjectIfMatch exFSorphan ["k"] [1] exEtag1 "text/plain").1.readF
      (dataPath ["k"]) = some (.bytes [1]) ∧
    readMeta (putObjectIfMatch exFSorphan ["k"] [1] exEtag1 "text/plain").1
      ["k"] = some ⟨calculateEtag [1], "text/plain"⟩ :=
  putObjectIfMatch_no_existence_check exFSorphan ["k"] [1] exEtag1
    "text/plain" exMeta1 (by decide) (by decide) (by decide) (by decide)
    (by decide) (by decide) (by decide)

/-- C10 witness: data artifact absent but an orphaned sidecar present — the
create succeeds and replaces the stale metadata. -/
theorem createObject_overwrites_orphan_meta_witness :
    (createObject exFSorphan ["k"] [1] "text/plain").2
      = .ok (calculateEtag [1]) ∧
    (createObject exFSorphan ["k"] [1] "text/plain").1.readF (dataPath ["k"])
      = some (.bytes [1]) ∧
    readMeta (createObject exFSorphan ["k"] [1] "text/plain").1 ["k"]
      = some ⟨calculateEtag [1], "text/plain"⟩ :=
  createObject_overwrites_orphan_meta exFSorphan ["k"] [1] "text/plain"
    exMeta1 (by decide) (by decide) (by decide) (by decide) (by decide)

/-- C7: `list` on a non-existent prefix path yields no batches; on a
well-formed state whose prefix path is a directory, a depth-first walk
discovers exactly the non-metadata files of the subtree — the batch is a
permutation of `listingSpec` (one entry per such file, keyed by the
forward-slash-joined path relative to the bucket root, metadata artifacts
excluded) — and everything is yielded as a single batch.  At `pre = []` this
enumerates every object key of the bucket exactly once. -/
theorem list_single_batch_exactly_nonmeta (fs : FS) (pre : Path) :
    (fs.access pre = false → list fs pre = []) ∧
    (fs.WF → fs.isDir pre = true →
      (fs.walkGo fs.depthBound pre).Perm (listingSpec fs pre) ∧
      list fs pre = (if fs.walkGo fs.depthBound pre = [] then []
        else [fs.walkGo fs.depthBound pre])) := by
  constructor
  · intro hacc
    unfold list
    rw [if_pos (by simp [hacc])]
  · intro hwf hd
    have hperm : (fs.walkGo fs.depthBound pre).Perm (listingSpec fs pre) := by
      rw [List.perm_iff_count]
      intro x
      rw [walkGo_count fs hwf fs.depthBound pre hd (by omega) x]
      unfold listingSpec
      rw [count_filterMap_eq_countP]
    refine ⟨hperm, ?_⟩
    unfold list
    rw [if_neg (by simp [FS.access, hd])]

/-- C7 witness: an absent prefix yields nothing; on a two-object store the
walk from the root is a permutation of the specification listing and is
yielded as one batch. -/
theorem list_single_batch_exactly_nonmeta_witness :
    list exFS0 ["zz"] = [] ∧
    ((exFSlist.walkGo exFSlist.depthBound []).Perm (listingSpec exFSlist []) ∧
     list exFSlist [] = (if exFSlist.walkGo exFSlist.depthBound [] = [] then []
       else [exFSlist.walkGo exFSlist.depthBound []])) :=
  ⟨(list_single_batch_exactly_nonmeta exFS0 ["zz"]).1 (by decide),
   (list_single_batch_exactly_nonmeta exFSlist []).2 (by decide) (by decide)⟩

end S3StoreMock
